import Mathlib

/-!
Verification of the agentic search-augmented reasoning backend
(multimodal chatbot demo): directive extraction, the bounded agentic
reasoning loop, the search-and-fetch orchestrator with its cache, the
concurrent page fetcher, the summarizer, and the task-stop endpoint.

Python strings are modelled as `List Char`; machine-level concerns
(sockets, threads) are abstracted into oracle functions passed as
parameters, while every piece of control flow and string manipulation is
translated directly from the source.
-/

namespace Chatbot

/-- Python strings, modelled as lists of characters. -/
abbrev Str := List Char

/-- Coerce a Lean string literal to the `Str` model. -/
def chars (s : String) : Str := s.toList

/-- The whitespace characters removed by Python `str.strip()`
(ASCII whitespace: space, tab, newline, carriage return,
vertical tab, form feed). -/
def pySpace (c : Char) : Bool :=
  c = ' ' || c = '\t' || c = '\n' || c = '\r' ||
  c = Char.ofNat 11 || c = Char.ofNat 12

/-- Python `str.strip()`: drop whitespace from both ends. -/
def pyStrip (s : Str) : Str :=
  ((s.dropWhile pySpace).reverse.dropWhile pySpace).reverse

/-- Matching test: `matchAt text sub i = true` iff `sub` occurs in
`text` starting at index `i` (Python `text[i:i+len(sub)] == sub`). -/
def matchAt (text sub : Str) (i : Nat) : Bool :=
  decide ((text.drop i).take sub.length = sub)

/-- Largest index `< n` satisfying `p`, scanning right to left. -/
def rlast (p : Nat → Bool) : Nat → Option Nat
  | 0 => none
  | n + 1 => if p n then some n else rlast p n

/-- Python `text.rfind(sub)` restricted to nonempty `sub`:
the largest index at which `sub` occurs, if any. -/
def pyRfind (text sub : Str) : Option Nat :=
  rlast (matchAt text sub) (text.length + 1)

/-- Python `text.rfind(sub, 0, hi)` for nonempty `sub`: the largest
index of an occurrence of `sub` lying entirely within `text[0:hi]`. -/
def pyRfindBefore (text sub : Str) (hi : Nat) : Option Nat :=
  rlast (fun i => matchAt text sub i && decide (i + sub.length ≤ hi))
    (text.length + 1)

/-- The directive opening delimiter `<search>`. -/
def openTag : Str := chars "<search>"

/-- The directive closing delimiter `</search>`. -/
def closeTag : Str := chars "</search>"

/-- Directive extraction (`extract_search_query` from
`backend/workflow/agentic_search.py`):
find the rightmost `</search>`, then the nearest `<search>` wholly
before it, and return the stripped text in between; `none` when the
text is empty or no complete span exists. -/
def extract_search_query (text : Str) : Option Str :=
  if text = [] then none
  else
    match pyRfind text closeTag with
    | none => none
    | some close_idx =>
      match pyRfindBefore text openTag close_idx with
      | none => none
      | some open_idx =>
        some (pyStrip ((text.drop (open_idx + openTag.length)).take
          (close_idx - (open_idx + openTag.length))))

/-- Occurrence of `sub` in `text` at index `i` (specification-side
predicate). -/
def occursAt (text sub : Str) (i : Nat) : Prop :=
  (text.drop i).take sub.length = sub

instance (text sub : Str) (i : Nat) : Decidable (occursAt text sub i) := by
  unfold occursAt; infer_instance

/-- Rightmost occurrence: `j` is the index of the last occurrence of
the close delimiter. -/
def lastCloseAt (text : Str) (j : Nat) : Prop :=
  occursAt text closeTag j ∧ ∀ j', j < j' → ¬ occursAt text closeTag j'

/-- Rightmost preceding opening: `i` is the index of the last
occurrence of the open delimiter lying wholly before position `j`. -/
def bestOpenBefore (text : Str) (j i : Nat) : Prop :=
  occursAt text openTag i ∧ i + openTag.length ≤ j ∧
  ∀ i', i < i' → occursAt text openTag i' → i' + openTag.length ≤ j → False

/-- Executable mirror of `lastCloseAt` (all candidate indices are below
`text.length + 1`). -/
def lastCloseAtB (text : Str) (j : Nat) : Bool :=
  matchAt text closeTag j &&
    (List.range (text.length + 1)).all
      (fun j' => !decide (j < j') || !matchAt text closeTag j')

/-- Executable mirror of `bestOpenBefore`. -/
def bestOpenBeforeB (text : Str) (j i : Nat) : Bool :=
  matchAt text openTag i && decide (i + openTag.length ≤ j) &&
    (List.range (text.length + 1)).all
      (fun i' => !decide (i < i') || !matchAt text openTag i' ||
        !decide (i' + openTag.length ≤ j))

/-- The raw (unstripped) text strictly between an opening tag starting at
`i` and a closing tag starting at `j`: `text[i+8 : j]`. -/
def spanInner (text : Str) (i j : Nat) : Str :=
  (text.drop (i + openTag.length)).take (j - (i + openTag.length))

/-- A complete directive span: an opening tag at `i` wholly before a
closing tag at `j`. -/
def completeSpanAt (text : Str) (i j : Nat) : Prop :=
  occursAt text openTag i ∧ occursAt text closeTag j ∧
    i + openTag.length ≤ j

/-- Existence of at least one complete directive span in the text. -/
def hasCompleteSpan (text : Str) : Prop := ∃ i j, completeSpanAt text i j

/-- Executable mirror of `hasCompleteSpan`. -/
def hasCompleteSpanB (text : Str) : Bool :=
  (List.range (text.length + 1)).any fun j =>
    matchAt text closeTag j &&
      (List.range (text.length + 1)).any fun i =>
        matchAt text openTag i && decide (i + openTag.length ≤ j)

/-- A search result as assembled by the orchestrator
(`search_and_fetch`): title, url, snippet, fetched page content. -/
structure SearchResult where
  title : Str
  url : Str
  snippet : Str
  content : Str
  deriving DecidableEq

/-- A content part of a conversation message. -/
inductive ContentPart where
  | text (s : Str)
  | image_path (p : Str)
  deriving DecidableEq

/-- A conversation message: role plus ordered content parts. -/
structure Msg where
  role : Str
  content : List ContentPart
  deriving DecidableEq

/-- A caller-facing stream event of the agentic loop. -/
inductive Event where
  | token (s : Str)
  | done
  deriving DecidableEq

/-- The fixed instruction wrapped around the user query in
`stream_agentic_search`. -/
def agentPromptText (query : Str) : Str :=
  chars "你是一个具备自主搜索能力的智能助理。\n当你认为需要外部信息时，请用以下格式提出搜索请求：\n<search>具体搜索问题</search>\n\n当信息已经足够时，请给出最终答案，不要再输出 <search></search>。\n\n用户问题：" ++
    query

/-- The initial conversation history: a single user message holding the
instruction-plus-query text and one image part per supplied path. -/
def initialHistory (query : Str) (image_paths : List Str) : List Msg :=
  [⟨chars "user",
    ContentPart.text (agentPromptText query) ::
      image_paths.map ContentPart.image_path⟩]

/-- An assistant message with a single text part. -/
def assistantText (s : Str) : Msg :=
  ⟨chars "assistant", [ContentPart.text s]⟩

/-- Accumulate streamed tokens exactly as the loop does
(`output = ""`, then `output += token` per token). -/
def concatStr (ts : List Str) : Str := ts.foldl (· ++ ·) []

/-- The search-result text emitted to the caller as a token event. -/
def wrapEmit (summary : Str) : Str :=
  chars "\n<search_result>" ++ summary ++ chars "</search_result>\n"

/-- The search-result text appended to conversation history. -/
def wrapHistory (summary : Str) : Str :=
  chars "<search_result>" ++ summary ++ chars "</search_result>"

/-- The loop's external collaborators, as oracles: the model's token
stream for a given history (`client.stream_generate` with
`stop=["</search>"]` and the stop string included in the output), the
orchestrator (`search_and_fetch` at top-K 5), and the summarizer
(`summarize_pages`). -/
structure Oracles where
  gen : List Msg → List Str
  searchFetch : Str → List SearchResult
  summarize : List SearchResult → Str

/-- The observable outcome of one loop round: the events emitted, the
next history (`none` when the loop terminates), and how many times the
orchestrator was invoked. -/
structure StepOut where
  events : List Event
  next : Option (List Msg)
  searches : Nat
  deriving DecidableEq

/-- One round of `stream_agentic_search`: stream and accumulate the
model's tokens, forward each as a token event, scan the accumulated
output for the last complete directive; with no directive (or an empty
one) emit `done` and stop, else search, summarize, emit the wrapped
summary, and extend history with the raw output then the wrapped
summary. -/
def loopStep (oc : Oracles) (history : List Msg) : StepOut :=
  let tokens := oc.gen history
  let output := concatStr tokens
  let evts := tokens.map Event.token
  match extract_search_query output with
  | none => ⟨evts ++ [Event.done], none, 0⟩
  | some q =>
    if q = [] then ⟨evts ++ [Event.done], none, 0⟩
    else
      let summary := oc.summarize (oc.searchFetch q)
      ⟨evts ++ [Event.token (wrapEmit summary)],
        some (history ++ [assistantText output,
          assistantText (wrapHistory summary)]), 1⟩

/-- The outcome of a whole run: all events in order, total orchestrator
invocations, and the number of generation rounds performed. -/
structure RunOut where
  events : List Event
  searches : Nat
  rounds : Nat
  deriving DecidableEq

/-- The bounded loop (`for _ in range(max_rounds)`): with the budget
exhausted, emit the final `done`; otherwise run one round and, if a
search was performed, recurse on the extended history. -/
def loopRun (oc : Oracles) : Nat → List Msg → RunOut
  | 0, _ => ⟨[Event.done], 0, 0⟩
  | n + 1, history =>
    match loopStep oc history with
    | ⟨evts, none, s⟩ => ⟨evts, s, 1⟩
    | ⟨evts, some h2, s⟩ =>
      let r := loopRun oc n h2
      ⟨evts ++ r.events, s + r.searches, 1 + r.rounds⟩

/-- Entry point `stream_agentic_search` of the agentic loop, with
`max_rounds = 20`, starting from the initial history. -/
def stream_agentic_search (oc : Oracles) (query : Str)
    (image_paths : List Str) : RunOut :=
  loopRun oc 20 (initialHistory query image_paths)

/-- The texts of the token events of a stream, in order. -/
def tokenTexts : List Event → List Str
  | [] => []
  | Event.token s :: es => s :: tokenTexts es
  | Event.done :: es => tokenTexts es

/-- Concrete oracle for the no-directive scenario: the model streams
`Par`, `is.` and never requests a search. -/
def oc5 : Oracles :=
  ⟨fun _ => [chars "Par", chars "is."], fun _ => [], fun _ => []⟩

/-- Concrete oracle whose round output has an unmatched opening
delimiter and no closing delimiter. -/
def oc9 : Oracles :=
  ⟨fun _ => [chars "I think <search> unfinished"], fun _ => [],
    fun _ => []⟩

/-- Concrete oracle whose round output is a whitespace-only directive. -/
def oc10 : Oracles :=
  ⟨fun _ => [chars "<search>   </search>"], fun _ => [], fun _ => []⟩

/-- Concrete oracle for a search round: the model emits one directive,
the summarizer returns `S`. -/
def oc4 : Oracles :=
  ⟨fun _ => [chars "<search>q</search>"], fun _ => [], fun _ => chars "S"⟩

/-- The failure marker prefixed to content of failed fetches. -/
def errTag : Str := chars "[Error]"

/-- Decimal rendering of a number, as Python string formatting does. -/
def natChars (n : Nat) : Str := (toString n).toList

/-- The outcome of the HTTP GET to the page-extraction service as seen
by `fetch_page_content`: an exception (network error, timeout) carrying
its message, or a response with status code and body text. -/
inductive FetchResp where
  | exc (msg : Str)
  | resp (status : Nat) (body : Str)
  deriving DecidableEq

/-- Shortest-match scan for the closing character of a URL-artifact
regex branch (`.*?` then the close character; `.` does not match a
newline). Returns the input remaining after the close character. -/
def tryClose (closeC : Char) : Str → Option Str
  | [] => none
  | c :: rest =>
    if c = closeC then some rest
    else if c = '\n' then none
    else tryClose closeC rest

/-- Try to match one alternative of `\(https?:.*?\)|\[https?:.*?\]` at
the head of `s` (greedy `s?`, then `:`); on success return the input
remaining after the match. -/
def tryArtifact (openC closeC : Char) (s : Str) : Option Str :=
  match s with
  | o :: 'h' :: 't' :: 't' :: 'p' :: 's' :: ':' :: rest =>
    if o = openC then tryClose closeC rest else none
  | o :: 'h' :: 't' :: 't' :: 'p' :: ':' :: rest =>
    if o = openC then tryClose closeC rest else none
  | _ => none

/-- The leftmost-alternative match of the URL-artifact pattern at the
current position: the parenthesis branch is tried first. -/
def matchArtifact (s : Str) : Option Str :=
  (tryArtifact '(' ')' s).orElse (fun _ => tryArtifact '[' ']' s)

/-- Model of `re.sub` removing URL artifacts: scan left to
right, removing each leftmost non-overlapping artifact match. Each step
consumes at least one character, so fuel `s.length` always suffices. -/
def cleanArtifactsFuel : Nat → Str → Str
  | 0, s => s
  | fuel + 1, s =>
    match matchArtifact s with
    | some r => cleanArtifactsFuel fuel r
    | none =>
      match s with
      | [] => []
      | c :: rest => c :: cleanArtifactsFuel fuel rest

/-- The markdown-URL-artifact removal applied to a 200 response body. -/
def cleanArtifacts (s : Str) : Str := cleanArtifactsFuel s.length s

/-- Page fetch (`fetch_page_content` from `backend/utils/search.py`):
on a 200
response, strip artifacts and surrounding whitespace; on any other
status or an exception, return a failure-marked string. -/
def fetch_page_content (net : Str → FetchResp) (url : Str) : Str :=
  match net url with
  | FetchResp.resp status body =>
    if status = 200 then pyStrip (cleanArtifacts body)
    else
      chars "[Error] Jina error " ++ natChars status ++ chars ": " ++
        body.take 200
  | FetchResp.exc e =>
    chars "[Error] Failed fetching " ++ url ++ chars ": " ++ e

/-- Concurrent fetch (`fetch_multiple_pages`): the returned
dictionary, as the finite map
sending each requested URL to its fetched content and every other URL
to nothing. The worker pool's completion order is unobservable in the
dictionary, which holds exactly one entry per requested URL. -/
def fetch_multiple_pages (net : Str → FetchResp) (urls : List Str) :
    Str → Option Str :=
  fun url =>
    if url ∈ urls then some (fetch_page_content net url) else none

/-- A fetch outcome the source treats as a failure: an exception or a
non-200 status. -/
def fetchFailed : FetchResp → Bool
  | FetchResp.exc _ => true
  | FetchResp.resp status _ => !(status == 200)

/-- A provider search result before page content is attached. -/
structure SerperItem where
  title : Str
  url : Str
  snippet : Str
  deriving DecidableEq

/-- The on-disk result cache (`.cache/search_cache.json`): query string
to stored result list. -/
abbrev Cache := List (Str × List SearchResult)

/-- Dictionary lookup on the cache. -/
def cacheGet : Cache → Str → Option (List SearchResult)
  | [], _ => none
  | (k, v) :: rest, q => if k = q then some v else cacheGet rest q

/-- Dictionary write `cache[query] = output` (replace or append). -/
def cacheSet : Cache → Str → List SearchResult → Cache
  | [], q, v => [(q, v)]
  | (k, w) :: rest, q, v =>
    if k = q then (q, v) :: rest else (k, w) :: cacheSet rest q v

/-- The miss path of `search_and_fetch`: query the provider, fetch the
non-empty URLs concurrently, then zip each result's content back by URL
(default empty). -/
def freshResults (serper : Str → Nat → List SerperItem)
    (net : Str → FetchResp) (query : Str) (top_k : Nat) :
    List SearchResult :=
  let search_results := serper query top_k
  let urls := (search_results.filter (fun it => !it.url.isEmpty)).map
    (fun it => it.url)
  let page_texts := fetch_multiple_pages net urls
  search_results.map (fun it =>
    ⟨it.title, it.url, it.snippet, (page_texts it.url).getD []⟩)

/-- Observable outcome of one `search_and_fetch` call: the returned
results, the cache afterwards, and how many provider calls and page
fetches were made. -/
structure SFOut where
  results : List SearchResult
  cache : Cache
  serperCalls : Nat
  fetchCalls : Nat
  deriving DecidableEq

/-- The miss-path outcome: one provider call, one fetch per non-empty
URL, and the combined list written to the cache under the query. -/
def missOut (serper : Str → Nat → List SerperItem)
    (net : Str → FetchResp) (cache : Cache) (query : Str)
    (top_k : Nat) : SFOut :=
  ⟨freshResults serper net query top_k,
    cacheSet cache query (freshResults serper net query top_k), 1,
    ((serper query top_k).filter (fun it => !it.url.isEmpty)).length⟩

/-- Orchestrator `search_and_fetch`: serve from the cache when the
stored entry holds
at least `top_k` results, else run the fresh orchestration and overwrite
the cache entry. -/
def search_and_fetch (serper : Str → Nat → List SerperItem)
    (net : Str → FetchResp) (cache : Cache) (query : Str)
    (top_k : Nat) : SFOut :=
  match cacheGet cache query with
  | some rs =>
    if top_k ≤ rs.length then ⟨rs.take top_k, cache, 0, 0⟩
    else missOut serper net cache query top_k
  | none => missOut serper net cache query top_k

/-- Keep predicate of the summarizer: drop entries whose content is
empty or failure-marked. -/
def keepPage (it : SearchResult) : Bool :=
  !(it.content.isEmpty || errTag.isPrefixOf it.content)

/-- The per-page block `### Page {i}: {title}\n{content[:10000]}`. -/
def pageBlock (i : Nat) (it : SearchResult) : Str :=
  chars "### Page " ++ natChars i ++ chars ": " ++ it.title ++ ['\n'] ++
    it.content.take 10000

/-- The surviving truncated page blocks, numbered from 1 in original
list order (skipped entries still advance the number). -/
def combined_texts (pages : List SearchResult) : List Str :=
  (pages.enumFrom 1).filterMap (fun x =>
    if keepPage x.2 then some (pageBlock x.1 x.2) else none)

/-- The fixed no-valid-content sentinel of the summarizer. -/
def noContentSentinel : Str :=
  chars "[Error] No valid page content to summarize."

/-- The fixed synthesis instruction prefixed to the summarizer prompt. -/
def summaryInstruction : Str :=
  chars "你将看到若干来自互联网的网页内容，这些网页是围绕同一主题抓取的。\n请基于所有网页内容进行【综合性总结】，要求：\n1. 融合所有网页的信息，而不是逐条复述；\n2. 去除重复内容，保留关键信息；\n3. 保持客观、中立、以事实为主；\n4. 用清晰、连贯的自然语言表述。\n5. 直接给出总结内容，不要说明过程。\n\n以下是网页内容：\n\n"

/-- Python `sep.join(parts)`. -/
def joinSep (sep : Str) : List Str → Str
  | [] => []
  | [x] => x
  | x :: y :: xs => x ++ sep ++ joinSep sep (y :: xs)

/-- Summarizer `summarize_pages` with an instrumented count of
language-model
calls: filter the pages; return the sentinel with zero model calls when
nothing survives, else one completion call on the assembled prompt. -/
def summarize_pages (llm : Str → Str) (pages : List SearchResult) :
    Str × Nat :=
  let ct := combined_texts pages
  if ct.isEmpty then (noContentSentinel, 0)
  else (llm (summaryInstruction ++ joinSep (chars "\n\n") ct), 1)

/-- Answer of the `/stop` endpoint. -/
inductive StopStatus where
  | stopping
  | not_found
  deriving DecidableEq

/-- The task registry `active_tasks` (task id to cancel-event state). -/
abbrev TaskRegistry := List (Str × Bool)

/-- Initial state of `active_tasks` at process start: the empty
dict. -/
def active_tasks_init : TaskRegistry := []

/-- Dictionary `.get` on the registry. -/
def registryGet : TaskRegistry → Str → Option Bool
  | [], _ => none
  | (k, v) :: rest, q => if k = q then some v else registryGet rest q

/-- Cancel-event set operation (`cancel_event.set()`) on the entry
for `q`, when present. -/
def registrySetTrue : TaskRegistry → Str → TaskRegistry
  | [], _ => []
  | (k, v) :: rest, q =>
    if k = q then (k, true) :: rest else (k, v) :: registrySetTrue rest q

/-- The `/stop` handler: look up the task's cancel event; when present,
set it and answer `stopping`, else answer `not_found`. -/
def stopEndpoint (tasks : TaskRegistry) (task_id : Str) :
    StopStatus × TaskRegistry :=
  match registryGet tasks task_id with
  | some _ => (StopStatus.stopping, registrySetTrue tasks task_id)
  | none => (StopStatus.not_found, tasks)

/-- The `/infer` handler's effect on `active_tasks`: none — no code
path in `main.py` ever inserts a task id into the registry, and the
workflow entry points take no task identifier or cancellation input. -/
def inferRegistryEffect (tasks : TaskRegistry) : TaskRegistry := tasks

/-- Registry states reachable from process start through the only
operations that touch `active_tasks`. -/
inductive ReachableRegistry : TaskRegistry → Prop
  | init : ReachableRegistry active_tasks_init
  | infer {t : TaskRegistry} : ReachableRegistry t →
      ReachableRegistry (inferRegistryEffect t)
  | stop {t : TaskRegistry} (task_id : Str) : ReachableRegistry t →
      ReachableRegistry (stopEndpoint t task_id).2

/-- Fixture: three requested URLs, the middle one timing out. -/
def net8 : Str → FetchResp := fun u =>
  if u = chars "http://a.com" then FetchResp.resp 200 (chars "Alpha page")
  else if u = chars "http://b.com" then FetchResp.exc (chars "timeout")
  else FetchResp.resp 200 (chars "Gamma page")

/-- Fixture: the three requested URLs. -/
def urls8 : List Str :=
  [chars "http://a.com", chars "http://b.com", chars "http://c.com"]

/-- Fixtures for the orchestrator cache scenarios. -/
def c3r1 : SearchResult :=
  ⟨chars "T1", chars "http://a", chars "s1", chars "body1"⟩

def c3r2 : SearchResult :=
  ⟨chars "T2", chars "http://b", chars "s2", chars "body2"⟩

def cache3 : Cache := [(chars "q1", [c3r1, c3r2])]

def serper3 : Str → Nat → List SerperItem :=
  fun _ _ => [⟨chars "T3", chars "http://x", chars "s3"⟩]

def net3 : Str → FetchResp :=
  fun _ => FetchResp.resp 200 (chars "page body")

theorem matchAt_iff (text sub : Str) (i : Nat) :
    matchAt text sub i = true ↔ occursAt text sub i := by
  simp [matchAt, occursAt]

theorem occursAt_bound {text sub : Str} {i : Nat} (hsub : sub ≠ [])
    (h : occursAt text sub i) : i + sub.length ≤ text.length := by
  by_cases hi : i ≤ text.length
  · have hlen := congrArg List.length h
    simp [List.length_take, List.length_drop] at hlen
    omega
  · exfalso
    have hdrop : text.drop i = [] := List.drop_eq_nil_of_le (by omega)
    rw [occursAt, hdrop, List.take_nil] at h
    exact hsub h.symm

theorem rlast_eq_some_iff (p : Nat → Bool) :
    ∀ n i, rlast p n = some i ↔
      i < n ∧ p i = true ∧ ∀ j, i < j → j < n → p j = false
  | 0, i => by simp [rlast]
  | n + 1, i => by
    rw [rlast]
    by_cases hp : p n = true
    · rw [if_pos hp]
      constructor
      · rintro h
        cases h
        exact ⟨Nat.lt_succ_self n, hp, fun j h1 h2 => by omega⟩
      · rintro ⟨h1, h2, h3⟩
        by_cases hin : i = n
        · rw [hin]
        · exfalso
          have := h3 n (by omega) (Nat.lt_succ_self n)
          rw [hp] at this
          exact Bool.noConfusion this
    · rw [if_neg hp, rlast_eq_some_iff p n i]
      constructor
      · rintro ⟨h1, h2, h3⟩
        refine ⟨by omega, h2, fun j hj1 hj2 => ?_⟩
        by_cases hjn : j = n
        · rw [hjn]; exact Bool.eq_false_iff.mpr hp
        · exact h3 j hj1 (by omega)
      · rintro ⟨h1, h2, h3⟩
        have hin : i ≠ n := by
          intro he; rw [he] at h2; exact hp h2
        exact ⟨by omega, h2, fun j hj1 hj2 => h3 j hj1 (by omega)⟩

theorem rlast_eq_none_iff (p : Nat → Bool) :
    ∀ n, rlast p n = none ↔ ∀ i, i < n → p i = false
  | 0 => by simp [rlast]
  | n + 1 => by
    rw [rlast]
    by_cases hp : p n = true
    · rw [if_pos hp]
      simp only [false_iff, reduceCtorEq]
      intro h
      have := h n (Nat.lt_succ_self n)
      rw [hp] at this
      exact Bool.noConfusion this
    · rw [if_neg hp, rlast_eq_none_iff p n]
      constructor
      · intro h i hi
        by_cases hin : i = n
        · rw [hin]; exact Bool.eq_false_iff.mpr hp
        · exact h i (by omega)
      · intro h i hi
        exact h i (by omega)

theorem pyRfind_eq_some_iff {text sub : Str} (hsub : sub ≠ []) (j : Nat) :
    pyRfind text sub = some j ↔
      occursAt text sub j ∧ ∀ j', j < j' → ¬ occursAt text sub j' := by
  have hpos : 0 < sub.length := List.length_pos.mpr hsub
  rw [pyRfind, rlast_eq_some_iff]
  constructor
  · rintro ⟨h1, h2, h3⟩
    refine ⟨(matchAt_iff text sub j).mp h2, fun j' hlt hocc => ?_⟩
    have hb := occursAt_bound hsub hocc
    have hfalse := h3 j' hlt (by omega)
    rw [(matchAt_iff text sub j').mpr hocc] at hfalse
    exact Bool.noConfusion hfalse
  · rintro ⟨hocc, hmax⟩
    have hb := occursAt_bound hsub hocc
    refine ⟨by omega, (matchAt_iff text sub j).mpr hocc, fun j' h1 h2 => ?_⟩
    rw [Bool.eq_false_iff]
    intro htrue
    exact hmax j' h1 ((matchAt_iff text sub j').mp htrue)

theorem pyRfindBefore_eq_some_iff {text sub : Str} (hsub : sub ≠ [])
    (bnd i : Nat) :
    pyRfindBefore text sub bnd = some i ↔
      (occursAt text sub i ∧ i + sub.length ≤ bnd) ∧
      ∀ i', i < i' → occursAt text sub i' → i' + sub.length ≤ bnd → False := by
  have hpos : 0 < sub.length := List.length_pos.mpr hsub
  rw [pyRfindBefore, rlast_eq_some_iff]
  constructor
  · rintro ⟨h1, h2, h3⟩
    rw [Bool.and_eq_true, decide_eq_true_eq] at h2
    refine ⟨⟨(matchAt_iff text sub i).mp h2.1, h2.2⟩, fun i' hlt hocc hbnd => ?_⟩
    have hb := occursAt_bound hsub hocc
    have hfalse := h3 i' hlt (by omega)
    rw [Bool.and_eq_false_iff] at hfalse
    rcases hfalse with hf | hf
    · rw [(matchAt_iff text sub i').mpr hocc] at hf
      exact Bool.noConfusion hf
    · rw [decide_eq_false_iff_not] at hf
      exact hf hbnd
  · rintro ⟨⟨hocc, hbnd⟩, hmax⟩
    have hb := occursAt_bound hsub hocc
    refine ⟨by omega, ?_, fun i' h1 h2 => ?_⟩
    · rw [Bool.and_eq_true, decide_eq_true_eq]
      exact ⟨(matchAt_iff text sub i).mpr hocc, hbnd⟩
    · rw [Bool.and_eq_false_iff]
      by_cases hm : matchAt text sub i' = true
      · right
        rw [decide_eq_false_iff_not]
        intro hle
        exact hmax i' h1 ((matchAt_iff text sub i').mp hm) hle
      · left
        exact Bool.eq_false_iff.mpr hm

theorem lastCloseAt_iff (text : Str) (j : Nat) :
    lastCloseAt text j ↔ lastCloseAtB text j = true := by
  rw [lastCloseAt, lastCloseAtB, Bool.and_eq_true, List.all_eq_true]
  constructor
  · rintro ⟨hocc, hmax⟩
    refine ⟨(matchAt_iff ..).mpr hocc, fun j' _ => ?_⟩
    by_cases hlt : j < j'
    · have : matchAt text closeTag j' = false := by
        rw [Bool.eq_false_iff]
        intro ht
        exact hmax j' hlt ((matchAt_iff ..).mp ht)
      simp [this]
    · simp [hlt]
  · rintro ⟨hm, hall⟩
    refine ⟨(matchAt_iff ..).mp hm, fun j' hlt hocc => ?_⟩
    have hb := @occursAt_bound _ closeTag _ (by decide) hocc
    have hmem : j' ∈ List.range (text.length + 1) :=
      List.mem_range.mpr (by omega)
    have := hall j' hmem
    simp [hlt, (matchAt_iff ..).mpr hocc] at this

theorem bestOpenBefore_iff (text : Str) (j i : Nat) :
    bestOpenBefore text j i ↔ bestOpenBeforeB text j i = true := by
  rw [bestOpenBefore, bestOpenBeforeB, Bool.and_eq_true, Bool.and_eq_true,
    List.all_eq_true]
  constructor
  · rintro ⟨hocc, hle, hmax⟩
    refine ⟨⟨(matchAt_iff ..).mpr hocc, by simpa using hle⟩, fun i' _ => ?_⟩
    by_cases hlt : i < i'
    · by_cases hm : matchAt text openTag i' = true
      · have : ¬ i' + openTag.length ≤ j := fun hle2 =>
          hmax i' hlt ((matchAt_iff ..).mp hm) hle2
        simp [this]
      · simp [Bool.eq_false_iff.mpr hm]
    · simp [hlt]
  · rintro ⟨⟨hm, hle⟩, hall⟩
    refine ⟨(matchAt_iff ..).mp hm, by simpa using hle, fun i' hlt hocc hle2 => ?_⟩
    have hb := @occursAt_bound _ openTag _ (by decide) hocc
    have hmem : i' ∈ List.range (text.length + 1) :=
      List.mem_range.mpr (by omega)
    have := hall i' hmem
    simp [hlt, (matchAt_iff ..).mpr hocc, hle2] at this

/-- Characterization of directive extraction: if `j` is the rightmost
close-delimiter occurrence and `i` the rightmost open-delimiter occurrence
wholly before it, extraction returns the stripped text between them. -/
theorem extract_eq_of_spans {text : Str} {i j : Nat}
    (hc : lastCloseAt text j) (ho : bestOpenBefore text j i) :
    extract_search_query text = some (pyStrip (spanInner text i j)) := by
  have htne : text ≠ [] := by
    intro he
    have h1 := hc.1
    rw [he] at h1
    simp [occursAt, closeTag, chars] at h1
  have h1 : pyRfind text closeTag = some j :=
    (pyRfind_eq_some_iff (by decide) j).mpr hc
  have h2 : pyRfindBefore text openTag j = some i :=
    (pyRfindBefore_eq_some_iff (by decide) j i).mpr
      ⟨⟨ho.1, ho.2.1⟩, ho.2.2⟩
  simp only [extract_search_query, if_neg htne, h1, h2, spanInner]

theorem hasCompleteSpan_iff (text : Str) :
    hasCompleteSpan text ↔ hasCompleteSpanB text = true := by
  rw [hasCompleteSpan, hasCompleteSpanB, List.any_eq_true]
  constructor
  · rintro ⟨i, j, hoi, hcj, hle⟩
    have hbi := @occursAt_bound _ openTag _ (by decide) hoi
    have hbj := @occursAt_bound _ closeTag _ (by decide) hcj
    refine ⟨j, List.mem_range.mpr (by omega), ?_⟩
    rw [Bool.and_eq_true, List.any_eq_true]
    refine ⟨(matchAt_iff ..).mpr hcj, i, List.mem_range.mpr (by omega), ?_⟩
    rw [Bool.and_eq_true, decide_eq_true_eq]
    exact ⟨(matchAt_iff ..).mpr hoi, hle⟩
  · rintro ⟨j, _, hj⟩
    rw [Bool.and_eq_true, List.any_eq_true] at hj
    obtain ⟨hcj, i, _, hi⟩ := hj
    rw [Bool.and_eq_true, decide_eq_true_eq] at hi
    exact ⟨i, j, (matchAt_iff ..).mp hi.1, (matchAt_iff ..).mp hcj, hi.2⟩

/-- When no complete directive span exists, extraction returns `none`. -/
theorem extract_eq_none_of_no_span {text : Str}
    (h : ¬ hasCompleteSpan text) : extract_search_query text = none := by
  by_cases htne : text = []
  · rw [htne]
    decide
  · rw [extract_search_query, if_neg htne]
    cases h1 : pyRfind text closeTag with
    | none => rfl
    | some cj =>
      cases h2 : pyRfindBefore text openTag cj with
      | none => simp only [h2]
      | some oi =>
        exfalso
        apply h
        have hc := ((pyRfind_eq_some_iff (by decide) cj).mp h1).1
        have ho := ((pyRfindBefore_eq_some_iff (by decide) cj oi).mp h2).1
        exact ⟨oi, cj, ho.1, hc, ho.2⟩

/-- Stripping an all-whitespace string yields the empty string. -/
theorem pyStrip_eq_nil_of_all_space {s : Str}
    (h : ∀ c ∈ s, pySpace c = true) : pyStrip s = [] := by
  have : s.dropWhile pySpace = [] := List.dropWhile_eq_nil_iff.mpr h
  rw [pyStrip, this]
  simp

theorem concatStr_eq_join (ts : List Str) : concatStr ts = ts.flatten := by
  suffices h : ∀ acc : Str, ts.foldl (· ++ ·) acc = acc ++ ts.flatten by
    simpa [concatStr] using h []
  induction ts with
  | nil => intro acc; simp
  | cons t ts ih =>
    intro acc
    simp [List.foldl_cons, ih, List.append_assoc]

theorem tokenTexts_map_token (ts : List Str) :
    tokenTexts (ts.map Event.token) = ts := by
  induction ts with
  | nil => rfl
  | cons t ts ih => simp [tokenTexts, ih]

theorem tokenTexts_append (es fs : List Event) :
    tokenTexts (es ++ fs) = tokenTexts es ++ tokenTexts fs := by
  induction es with
  | nil => rfl
  | cons e es ih => cases e <;> simp [tokenTexts, ih]

theorem loopStep_terminal (oc : Oracles) (h : List Msg)
    (hq : extract_search_query (concatStr (oc.gen h)) = none ∨
      extract_search_query (concatStr (oc.gen h)) = some []) :
    loopStep oc h = ⟨(oc.gen h).map Event.token ++ [Event.done], none, 0⟩ := by
  rcases hq with hq | hq <;> simp [loopStep, hq]

theorem loopStep_search (oc : Oracles) (h : List Msg) {q : Str}
    (hq : extract_search_query (concatStr (oc.gen h)) = some q)
    (hne : q ≠ []) :
    loopStep oc h =
      ⟨(oc.gen h).map Event.token ++
          [Event.token (wrapEmit (oc.summarize (oc.searchFetch q)))],
        some (h ++ [assistantText (concatStr (oc.gen h)),
          assistantText (wrapHistory (oc.summarize (oc.searchFetch q)))]),
        1⟩ := by
  simp [loopStep, hq, hne]

/-- Unfolding of a run on a terminal round (no usable directive). -/
theorem loopRun_succ_terminal (oc : Oracles) (n : Nat) (h : List Msg)
    (hq : extract_search_query (concatStr (oc.gen h)) = none ∨
      extract_search_query (concatStr (oc.gen h)) = some []) :
    loopRun oc (n + 1) h =
      ⟨(oc.gen h).map Event.token ++ [Event.done], 0, 1⟩ := by
  rw [loopRun, loopStep_terminal oc h hq]

/-- Unfolding of a run on a search round. -/
theorem loopRun_succ_search (oc : Oracles) (n : Nat) (h : List Msg) {q : Str}
    (hq : extract_search_query (concatStr (oc.gen h)) = some q)
    (hne : q ≠ []) :
    loopRun oc (n + 1) h =
      ⟨((oc.gen h).map Event.token ++
          [Event.token (wrapEmit (oc.summarize (oc.searchFetch q)))]) ++
          (loopRun oc n (h ++ [assistantText (concatStr (oc.gen h)),
            assistantText (wrapHistory
              (oc.summarize (oc.searchFetch q)))])).events,
        1 + (loopRun oc n (h ++ [assistantText (concatStr (oc.gen h)),
          assistantText (wrapHistory
            (oc.summarize (oc.searchFetch q)))])).searches,
        1 + (loopRun oc n (h ++ [assistantText (concatStr (oc.gen h)),
          assistantText (wrapHistory
            (oc.summarize (oc.searchFetch q)))])).rounds⟩ := by
  rw [loopRun, loopStep_search oc h hq hne]

/-- Every run's event stream is a done-free prefix followed by a single
final `done`, and the round count never exceeds the fuel. -/
theorem loopRun_shape (oc : Oracles) :
    ∀ (n : Nat) (h : List Msg),
      (∃ pre : List Event, (loopRun oc n h).events = pre ++ [Event.done] ∧
        Event.done ∉ pre) ∧ (loopRun oc n h).rounds ≤ n
  | 0, h => by
    refine ⟨⟨[], by simp [loopRun], by simp⟩, by simp [loopRun]⟩
  | n + 1, h => by
    rcases hex : extract_search_query (concatStr (oc.gen h)) with _ | q
    · rw [loopRun_succ_terminal oc n h (Or.inl hex)]
      exact ⟨⟨(oc.gen h).map Event.token, rfl, by simp⟩, Nat.le_add_left 1 n⟩
    · by_cases hq : q = []
      · rw [hq] at hex
        rw [loopRun_succ_terminal oc n h (Or.inr hex)]
        exact ⟨⟨(oc.gen h).map Event.token, rfl, by simp⟩, Nat.le_add_left 1 n⟩
      · rw [loopRun_succ_search oc n h hex hq]
        obtain ⟨⟨pre, hpre, hmem⟩, hrounds⟩ := loopRun_shape oc n
          (h ++ [assistantText (concatStr (oc.gen h)),
            assistantText (wrapHistory (oc.summarize (oc.searchFetch q)))])
        constructor
        · refine ⟨((oc.gen h).map Event.token ++
            [Event.token (wrapEmit (oc.summarize (oc.searchFetch q)))]) ++ pre,
            ?_, ?_⟩
          · simp only [hpre, List.append_assoc]
          · intro hc
            rcases List.mem_append.mp hc with hc | hc
            · rcases List.mem_append.mp hc with hc | hc
              · simp at hc
              · simp at hc
            · exact hmem hc
        · simp only []
          omega

/-- The emitted search-result text is the history-appended one with a
newline added on each side. -/
theorem wrapEmit_eq_wrapHistory (s : Str) :
    wrapEmit s = '\n' :: (wrapHistory s ++ ['\n']) := by
  have h1 : chars "\n<search_result>" = '\n' :: chars "<search_result>" := rfl
  have h2 : chars "</search_result>\n" = chars "</search_result>" ++ ['\n'] :=
    rfl
  rw [wrapEmit, wrapHistory, h1, h2]
  simp [List.append_assoc]

/-- C1 as literally stated is false: for `<search> a </search>` the text
between the rightmost `</search>` (index 11) and the preceding
`<search>` (index 0) is `" a "`, but extraction returns the stripped
`"a"`, not `" a "`. -/
theorem c1_counterexample :
    lastCloseAtB (chars "<search> a </search>") 11 = true ∧
    bestOpenBeforeB (chars "<search> a </search>") 11 0 = true ∧
    spanInner (chars "<search> a </search>") 0 11 = chars " a " ∧
    extract_search_query (chars "<search> a </search>") =
      some (chars "a") ∧
    extract_search_query (chars "<search> a </search>") ≠
      some (chars " a ") := by
  decide

/-- C1 (amended): directive extraction locates the rightmost occurrence
of `</search>`, then the nearest preceding `<search>` wholly before it,
and returns the text between them stripped of leading and trailing
whitespace (the stripping is what the literal claim omits); on the
spec's literal test text it returns `second`. -/
theorem c1_extract_last_complete_span {text : Str} {i j : Nat}
    (hclose : lastCloseAt text j) (hopen : bestOpenBefore text j i) :
    extract_search_query text = some (pyStrip (spanInner text i j)) :=
  extract_eq_of_spans hclose hopen

theorem c1_extract_last_complete_span_witness :
    extract_search_query
        (chars "...<search>first</search> filler <search>second</search>") =
      some (pyStrip (spanInner
        (chars "...<search>first</search> filler <search>second</search>")
        33 47)) ∧
    pyStrip (spanInner
        (chars "...<search>first</search> filler <search>second</search>")
        33 47) = chars "second" :=
  ⟨c1_extract_last_complete_span
      ((lastCloseAt_iff _ 47).mpr (by decide))
      ((bestOpenBefore_iff _ 47 33).mpr (by decide)),
    by decide⟩

/-- C2: for every model, orchestrator and summarizer behavior, the
agentic loop performs at most 20 generation rounds and its emitted event
sequence ends with exactly one terminal done event. -/
theorem c2_round_bound_single_done (oc : Oracles) (query : Str)
    (image_paths : List Str) :
    (stream_agentic_search oc query image_paths).rounds ≤ 20 ∧
    (stream_agentic_search oc query image_paths).events.count Event.done =
      1 ∧
    (stream_agentic_search oc query image_paths).events.getLast? =
      some Event.done := by
  obtain ⟨⟨pre, hpre, hmem⟩, hrounds⟩ :=
    loopRun_shape oc 20 (initialHistory query image_paths)
  rw [stream_agentic_search]
  refine ⟨hrounds, ?_, ?_⟩
  · rw [hpre, List.count_append]
    simp [List.count_eq_zero.mpr hmem]
  · rw [hpre, List.getLast?_concat]

/-- C5: when the model never emits a directive, the event stream is the
round's token events followed by exactly one done event, the
concatenation of the token texts is the model's full output for the
round, and no search is performed. -/
theorem c5_no_directive_stream (oc : Oracles) (query : Str)
    (image_paths : List Str)
    (hnd : ∀ h : List Msg,
      extract_search_query (concatStr (oc.gen h)) = none) :
    (stream_agentic_search oc query image_paths).events =
      (oc.gen (initialHistory query image_paths)).map Event.token ++
        [Event.done] ∧
    (tokenTexts
        (stream_agentic_search oc query image_paths).events).flatten =
      concatStr (oc.gen (initialHistory query image_paths)) ∧
    (stream_agentic_search oc query image_paths).searches = 0 := by
  rw [stream_agentic_search, show (20 : Nat) = 19 + 1 from rfl,
    loopRun_succ_terminal oc 19 _ (Or.inl (hnd _))]
  refine ⟨rfl, ?_, rfl⟩
  show (tokenTexts
      ((oc.gen (initialHistory query image_paths)).map Event.token ++
        [Event.done])).flatten = _
  rw [tokenTexts_append, tokenTexts_map_token]
  simp [tokenTexts, concatStr_eq_join]

theorem c5_no_directive_stream_witness :
    (stream_agentic_search oc5 (chars "What is the capital of France?")
        []).events =
      [Event.token (chars "Par"), Event.token (chars "is."),
        Event.done] ∧
    (tokenTexts (stream_agentic_search oc5
        (chars "What is the capital of France?") []).events).flatten =
      chars "Paris." :=
  have h := c5_no_directive_stream oc5
    (chars "What is the capital of France?") [] (fun _ => rfl)
  ⟨h.1.trans (by decide), h.2.1.trans (by decide)⟩

/-- C9: when the accumulated round output contains no complete directive
span (in particular an opening delimiter with no closing one),
extraction returns none and the loop emits its token events and a single
terminal done event, performing no search and no further rounds. -/
theorem c9_no_span_terminates (oc : Oracles) (query : Str)
    (image_paths : List Str)
    (hns : ¬ hasCompleteSpan
      (concatStr (oc.gen (initialHistory query image_paths)))) :
    extract_search_query
        (concatStr (oc.gen (initialHistory query image_paths))) = none ∧
    (stream_agentic_search oc query image_paths).events =
      (oc.gen (initialHistory query image_paths)).map Event.token ++
        [Event.done] ∧
    (stream_agentic_search oc query image_paths).searches = 0 ∧
    (stream_agentic_search oc query image_paths).rounds = 1 := by
  have hnone := extract_eq_none_of_no_span hns
  rw [stream_agentic_search, show (20 : Nat) = 19 + 1 from rfl,
    loopRun_succ_terminal oc 19 _ (Or.inl hnone)]
  exact ⟨hnone, rfl, rfl, rfl⟩

theorem c9_no_span_terminates_witness :
    (stream_agentic_search oc9 (chars "q") []).events =
      [Event.token (chars "I think <search> unfinished"), Event.done] ∧
    (stream_agentic_search oc9 (chars "q") []).searches = 0 :=
  have h := c9_no_span_terminates oc9 (chars "q") []
    (mt (hasCompleteSpan_iff _).mp (by decide))
  ⟨h.2.1.trans (by decide), h.2.2.1⟩

/-- C10: when the last complete directive span holds only whitespace,
the extracted query is the empty string (after stripping) and the loop
treats it like no directive: token events, a single done event, and no
search. -/
theorem c10_whitespace_directive_terminates (oc : Oracles) (query : Str)
    (image_paths : List Str) (i j : Nat)
    (hclose : lastCloseAt
      (concatStr (oc.gen (initialHistory query image_paths))) j)
    (hopen : bestOpenBefore
      (concatStr (oc.gen (initialHistory query image_paths))) j i)
    (hws : ∀ c ∈ spanInner
        (concatStr (oc.gen (initialHistory query image_paths))) i j,
      pySpace c = true) :
    extract_search_query
        (concatStr (oc.gen (initialHistory query image_paths))) =
      some [] ∧
    (stream_agentic_search oc query image_paths).events =
      (oc.gen (initialHistory query image_paths)).map Event.token ++
        [Event.done] ∧
    (stream_agentic_search oc query image_paths).searches = 0 := by
  have hext := extract_eq_of_spans hclose hopen
  rw [pyStrip_eq_nil_of_all_space hws] at hext
  rw [stream_agentic_search, show (20 : Nat) = 19 + 1 from rfl,
    loopRun_succ_terminal oc 19 _ (Or.inr hext)]
  exact ⟨hext, rfl, rfl⟩

theorem c10_whitespace_directive_terminates_witness :
    extract_search_query (chars "<search>   </search>") = some [] ∧
    (stream_agentic_search oc10 (chars "q") []).searches = 0 :=
  have h := c10_whitespace_directive_terminates oc10 (chars "q") [] 0 11
    ((lastCloseAt_iff _ 11).mpr (by decide))
    ((bestOpenBefore_iff _ 11 0).mpr (by decide))
    (by decide)
  ⟨h.1, h.2.2⟩

/-- C4 as literally stated is false: on the first search round of this
concrete run the search-result token event emitted to the caller is
`"\n<search_result>S</search_result>\n"` while the text appended to the
conversation history is `"<search_result>S</search_result>"` — they are
not character-for-character identical. -/
theorem c4_counterexample :
    (loopStep oc4 (initialHistory (chars "hi") [])).events =
      [Event.token (chars "<search>q</search>"),
        Event.token (chars "\n<search_result>S</search_result>\n")] ∧
    (loopStep oc4 (initialHistory (chars "hi") [])).next =
      some (initialHistory (chars "hi") [] ++
        [assistantText (chars "<search>q</search>"),
          assistantText (chars "<search_result>S</search_result>")]) ∧
    chars "\n<search_result>S</search_result>\n" ≠
      chars "<search_result>S</search_result>" :=
  ⟨rfl, rfl, by decide⟩

/-- C4 (amended): on every search round exactly two assistant messages
are appended to the history — first the round's raw accumulated output,
then the wrapped summary `<search_result>…</search_result>` — and the
token event emitted to the caller is that same wrapped summary with one
newline added before and after; on a terminal round zero messages are
appended. -/
theorem c4_round_appends (oc : Oracles) (h : List Msg) :
    (∀ q : Str, extract_search_query (concatStr (oc.gen h)) = some q →
      q ≠ [] →
      loopStep oc h =
        ⟨(oc.gen h).map Event.token ++
            [Event.token (wrapEmit (oc.summarize (oc.searchFetch q)))],
          some (h ++ [assistantText (concatStr (oc.gen h)),
            assistantText (wrapHistory (oc.summarize (oc.searchFetch q)))]),
          1⟩ ∧
      wrapEmit (oc.summarize (oc.searchFetch q)) =
        '\n' :: (wrapHistory (oc.summarize (oc.searchFetch q)) ++ ['\n'])) ∧
    (extract_search_query (concatStr (oc.gen h)) = none ∨
      extract_search_query (concatStr (oc.gen h)) = some [] →
      loopStep oc h =
        ⟨(oc.gen h).map Event.token ++ [Event.done], none, 0⟩) := by
  constructor
  · intro q hq hne
    exact ⟨loopStep_search oc h hq hne, wrapEmit_eq_wrapHistory _⟩
  · intro hq
    exact loopStep_terminal oc h hq

theorem c4_round_appends_witness :
    loopStep oc4 (initialHistory (chars "hi") []) =
      ⟨(oc4.gen (initialHistory (chars "hi") [])).map Event.token ++
          [Event.token (wrapEmit (oc4.summarize
            (oc4.searchFetch (chars "q"))))],
        some (initialHistory (chars "hi") [] ++
          [assistantText (concatStr
            (oc4.gen (initialHistory (chars "hi") []))),
            assistantText (wrapHistory (oc4.summarize
              (oc4.searchFetch (chars "q"))))]),
        1⟩ ∧
    wrapEmit (oc4.summarize (oc4.searchFetch (chars "q"))) =
      '\n' :: (wrapHistory (oc4.summarize
        (oc4.searchFetch (chars "q"))) ++ ['\n']) :=
  (c4_round_appends oc4 (initialHistory (chars "hi") [])).1 (chars "q")
    (by decide) (by decide)

theorem isPrefixOf_append (l t : Str) : l.isPrefixOf (l ++ t) = true := by
  induction l with
  | nil => simp
  | cons c cs ih => simp [List.isPrefixOf, ih]

theorem cacheGet_cacheSet (c : Cache) (q : Str)
    (v : List SearchResult) : cacheGet (cacheSet c q v) q = some v := by
  induction c with
  | nil => simp [cacheSet, cacheGet]
  | cons p rest ih =>
    obtain ⟨k, w⟩ := p
    by_cases hk : k = q
    · simp [cacheSet, cacheGet, hk]
    · simp [cacheSet, cacheGet, hk, ih]

theorem filterMap_guard {α β : Type} (p : α → Bool) (f : α → β) :
    ∀ l : List α,
      (l.filterMap fun x => if p x then some (f x) else none) =
        (l.filter p).map f
  | [] => rfl
  | x :: xs => by
    by_cases hp : p x = true <;>
      simp [List.filterMap_cons, List.filter_cons, hp,
        filterMap_guard p f xs]

theorem snd_mem_of_mem_enumFrom {α : Type} :
    ∀ (l : List α) (n : Nat) (x : Nat × α), x ∈ l.enumFrom n → x.2 ∈ l
  | [], _, _, h => by simp [List.enumFrom] at h
  | a :: as, n, x, h => by
    rw [List.enumFrom] at h
    rcases List.mem_cons.mp h with h | h
    · rw [h]
      exact List.mem_cons_self a as
    · exact List.mem_cons_of_mem a (snd_mem_of_mem_enumFrom as (n + 1) x h)

/-- C8: the fetcher's result mapping has exactly one entry per requested
URL; each entry holds that URL's fetched content; a failed fetch
(exception or non-200 status) yields a failure-marked string rather than
an exception; and one URL's entry depends only on that URL's own
outcome, so failures elsewhere never remove or alter it. -/
theorem c8_fetch_many_total (net : Str → FetchResp) (urls : List Str)
    (u : Str) :
    ((fetch_multiple_pages net urls u).isSome ↔ u ∈ urls) ∧
    (u ∈ urls →
      fetch_multiple_pages net urls u =
        some (fetch_page_content net u)) ∧
    (fetchFailed (net u) = true →
      errTag.isPrefixOf (fetch_page_content net u) = true) ∧
    (∀ net2 : Str → FetchResp, net2 u = net u →
      fetch_multiple_pages net2 urls u =
        fetch_multiple_pages net urls u) := by
  refine ⟨?_, ?_, ?_, ?_⟩
  · by_cases hm : u ∈ urls <;> simp [fetch_multiple_pages, hm]
  · intro hm
    simp [fetch_multiple_pages, hm]
  · intro hf
    cases hnet : net u with
    | exc e =>
      simp only [fetch_page_content, hnet]
      have he : chars "[Error] Failed fetching " =
          errTag ++ chars " Failed fetching " := rfl
      rw [he, List.append_assoc, List.append_assoc]
      exact isPrefixOf_append _ _
    | resp status body =>
      rw [hnet] at hf
      simp only [fetchFailed, Bool.not_eq_true', beq_eq_false_iff_ne,
        ne_eq] at hf
      simp only [fetch_page_content, hnet, if_neg hf]
      have he : chars "[Error] Jina error " =
          errTag ++ chars " Jina error " := rfl
      rw [he, List.append_assoc, List.append_assoc, List.append_assoc]
      exact isPrefixOf_append _ _
  · intro net2 h2
    simp [fetch_multiple_pages, fetch_page_content, h2]

theorem c8_fetch_many_total_witness :
    fetch_multiple_pages net8 urls8 (chars "http://b.com") =
      some (fetch_page_content net8 (chars "http://b.com")) ∧
    errTag.isPrefixOf (fetch_page_content net8 (chars "http://b.com")) =
      true ∧
    ((fetch_multiple_pages net8 urls8 (chars "http://d.com")).isSome ↔
      chars "http://d.com" ∈ urls8) :=
  ⟨(c8_fetch_many_total net8 urls8 (chars "http://b.com")).2.1
      (by decide),
    (c8_fetch_many_total net8 urls8 (chars "http://b.com")).2.2.1
      (by decide),
    (c8_fetch_many_total net8 urls8 (chars "http://d.com")).1⟩

/-- C3: a cache hit (stored entry of length at least top-K for the exact
query) returns the first top-K stored results with zero provider calls,
zero page fetches and an unchanged cache; a miss (absent entry or stored
length below top-K) runs the fresh orchestration once and overwrites the
cache entry for the query with its combined result list. -/
theorem c3_search_and_fetch_cache (serper : Str → Nat → List SerperItem)
    (net : Str → FetchResp) (cache : Cache) (query : Str)
    (top_k : Nat) :
    (∀ rs, cacheGet cache query = some rs → top_k ≤ rs.length →
      search_and_fetch serper net cache query top_k =
        ⟨rs.take top_k, cache, 0, 0⟩) ∧
    ((cacheGet cache query = none ∨
      ∃ rs, cacheGet cache query = some rs ∧ rs.length < top_k) →
      search_and_fetch serper net cache query top_k =
        missOut serper net cache query top_k ∧
      (search_and_fetch serper net cache query top_k).serperCalls = 1 ∧
      (search_and_fetch serper net cache query top_k).results =
        freshResults serper net query top_k ∧
      cacheGet (search_and_fetch serper net cache query top_k).cache
        query = some (freshResults serper net query top_k)) := by
  constructor
  · intro rs hrs hk
    simp only [search_and_fetch, hrs, if_pos hk]
  · intro h
    have hmiss : search_and_fetch serper net cache query top_k =
        missOut serper net cache query top_k := by
      rcases h with h | ⟨rs, hrs, hlen⟩
      · simp only [search_and_fetch, h]
      · simp only [search_and_fetch, hrs,
          if_neg (by omega : ¬ top_k ≤ rs.length)]
    refine ⟨hmiss, by rw [hmiss]; rfl, by rw [hmiss]; rfl, ?_⟩
    rw [hmiss]
    exact cacheGet_cacheSet cache query _

theorem c3_search_and_fetch_cache_witness :
    search_and_fetch serper3 net3 cache3 (chars "q1") 2 =
      ⟨[c3r1, c3r2], cache3, 0, 0⟩ ∧
    (search_and_fetch serper3 net3 cache3 (chars "q2") 1).serperCalls =
      1 ∧
    cacheGet
      (search_and_fetch serper3 net3 cache3 (chars "q2") 1).cache
      (chars "q2") = some (freshResults serper3 net3 (chars "q2") 1) :=
  have h1 := (c3_search_and_fetch_cache serper3 net3 cache3 (chars "q1")
    2).1 [c3r1, c3r2] (by decide) (by decide)
  have h2 := (c3_search_and_fetch_cache serper3 net3 cache3 (chars "q2")
    1).2 (Or.inl (by decide))
  ⟨h1.trans (by decide), h2.2.1, h2.2.2.2⟩

theorem combined_texts_eq_nil {pages : List SearchResult}
    (hall : ∀ x ∈ pages.enumFrom 1, keepPage x.2 = false) :
    combined_texts pages = [] := by
  rw [combined_texts, List.filterMap_eq_nil_iff]
  intro x hx
  simp [hall x hx]

/-- C7: when every entry's content is empty or failure-marked, the
summarizer returns the fixed sentinel without invoking the model;
otherwise the blocks it assembles are exactly those of the surviving
entries, in order, each carrying the entry's content truncated to at
most 10000 characters, and the model is invoked exactly once. -/
theorem c7_summarize_filter (llm : Str → Str)
    (pages : List SearchResult) :
    ((∀ it ∈ pages, it.content = [] ∨
        errTag.isPrefixOf it.content = true) →
      summarize_pages llm pages = (noContentSentinel, 0)) ∧
    combined_texts pages =
      ((pages.enumFrom 1).filter (fun x => keepPage x.2)).map
        (fun x => pageBlock x.1 x.2) ∧
    (∀ it : SearchResult, keepPage it = true ↔
      ¬(it.content = [] ∨ errTag.isPrefixOf it.content = true)) ∧
    (∀ (i : Nat) (it : SearchResult),
      (it.content.take 10000).length ≤ 10000 ∧
      pageBlock i it = chars "### Page " ++ natChars i ++ chars ": " ++
        it.title ++ ['\n'] ++ it.content.take 10000) ∧
    (combined_texts pages ≠ [] → (summarize_pages llm pages).2 = 1) := by
  refine ⟨?_, ?_, ?_, ?_, ?_⟩
  · intro hbad
    have hall : ∀ x ∈ pages.enumFrom 1, keepPage x.2 = false := by
      intro x hx
      rcases hbad x.2 (snd_mem_of_mem_enumFrom pages 1 x hx) with hc | hp
      · simp [keepPage, hc]
      · simp [keepPage, hp]
    simp [summarize_pages, combined_texts_eq_nil hall]
  · rw [combined_texts]
    exact filterMap_guard (fun x => keepPage x.2)
      (fun x => pageBlock x.1 x.2) (pages.enumFrom 1)
  · intro it
    constructor
    · intro hk hcon
      rcases hcon with hc | hp
      · rw [keepPage] at hk
        simp [hc] at hk
      · rw [keepPage] at hk
        simp [hp] at hk
    · intro hn
      rw [not_or] at hn
      have h1 : it.content.isEmpty = false := by
        rw [Bool.eq_false_iff]
        intro ht
        exact hn.1 (List.isEmpty_iff.mp ht)
      have h2 : errTag.isPrefixOf it.content = false :=
        Bool.eq_false_iff.mpr hn.2
      simp [keepPage, h1, h2]
  · intro i it
    exact ⟨by rw [List.length_take]; exact min_le_left _ _, rfl⟩
  · intro hne
    have hf : (combined_texts pages).isEmpty = false := by
      rw [Bool.eq_false_iff]
      intro ht
      exact hne (List.isEmpty_iff.mp ht)
    simp [summarize_pages, hf]

theorem c7_summarize_filter_witness :
    summarize_pages (fun _ => chars "OK")
      [⟨chars "T1", chars "u1", chars "s1", chars "[Error] boom"⟩,
        ⟨chars "T2", chars "u2", chars "s2", []⟩] =
      (noContentSentinel, 0) :=
  (c7_summarize_filter (fun _ => chars "OK") _).1 (by decide)

/-- C6: the cancellation registry `active_tasks` is empty in every
reachable program state — no handler ever registers a task — so every
`/stop` request answers `not_found`, no cancel event is ever set, and
no cancellation signal can reach a running agentic loop (whose entry
point takes no cancellation input at all). -/
theorem c6_stop_never_cancels (t : TaskRegistry)
    (ht : ReachableRegistry t) :
    t = [] ∧ ∀ task_id : Str,
      (stopEndpoint t task_id).1 = StopStatus.not_found := by
  induction ht with
  | init => exact ⟨rfl, fun _ => rfl⟩
  | infer ht ih => exact ih
  | stop task_id ht ih =>
    obtain ⟨he, _⟩ := ih
    rw [he]
    exact ⟨rfl, fun _ => rfl⟩

theorem c6_stop_never_cancels_witness :
    (stopEndpoint active_tasks_init (chars "task-1")).1 =
      StopStatus.not_found :=
  (c6_stop_never_cancels active_tasks_init ReachableRegistry.init).2
    (chars "task-1")

end Chatbot
